import Mathlib

/-!
# Verification of the `pow` proof-of-work package

A shallow embedding, in Lean 4, of the proof-of-work challenge package of
this repository (seed codec, solution checker, verified-solution store and
challenge manager), together with theorems settling the specification's
claims about it.

Bytes are modelled as `Nat` (meaningful values are `< 256`); byte strings
as `List Nat`.  Machine integers are modelled as `Nat`/`Int` with explicit
reduction modulo `2^32`/`2^64` where the code relies on fixed width.
Go `time.Time` values are modelled as `Int` nanoseconds since the Unix
epoch; `time.Time.Unix()` is Euclidean division by `10^9` (Go stores a
time as whole seconds plus a nanosecond offset in `[0, 10^9)`, so `Unix`
is the floor of the nanosecond count divided by `10^9`).
-/

/-! ## Byte and word helpers -/

/-- Mask to 32 bits, as Go arithmetic on `uint32` does implicitly. -/
def mask32 (x : Nat) : Nat := x % 2 ^ 32

/-- Mask to 64 bits, as Go arithmetic on `uint64` does implicitly. -/
def mask64 (x : Nat) : Nat := x % 2 ^ 64

/-- Rotate a 32-bit word left by `s` bits. -/
def rotl32 (x s : Nat) : Nat := mask32 ((x <<< s) + (x >>> (32 - s)))

/-- Rotate a 64-bit word right by `s` bits. -/
def rotr64 (x s : Nat) : Nat := mask64 ((x >>> s) + (x <<< (64 - s)))

/-- Bitwise complement of a 32-bit word. -/
def not32 (x : Nat) : Nat := x ^^^ 0xFFFFFFFF

/-- Bitwise complement of a 64-bit word. -/
def not64 (x : Nat) : Nat := x ^^^ 0xFFFFFFFFFFFFFFFF

/-- The 4 big-endian bytes of a 32-bit word, as `binary.BigEndian.PutUint32`. -/
def be32 (v : Nat) : List Nat :=
  [(v >>> 24) % 256, (v >>> 16) % 256, (v >>> 8) % 256, v % 256]

/-- The 8 big-endian bytes of a 64-bit word, as `binary.BigEndian.PutUint64`. -/
def be64 (v : Nat) : List Nat :=
  [(v >>> 56) % 256, (v >>> 48) % 256, (v >>> 40) % 256, (v >>> 32) % 256,
   (v >>> 24) % 256, (v >>> 16) % 256, (v >>> 8) % 256, v % 256]

/-- Big-endian interpretation of a byte list. -/
def fromBE (bs : List Nat) : Nat := bs.foldl (fun acc b => acc * 256 + b) 0

/-- `binary.BigEndian.Uint32`: the first four bytes, big-endian. -/
def beUint32 (bs : List Nat) : Nat :=
  bs.getD 0 0 * 2 ^ 24 + bs.getD 1 0 * 2 ^ 16 + bs.getD 2 0 * 2 ^ 8 + bs.getD 3 0

/-- The 4 little-endian bytes of a 32-bit word. -/
def le32 (v : Nat) : List Nat :=
  [v % 256, (v >>> 8) % 256, (v >>> 16) % 256, (v >>> 24) % 256]

/-- Little-endian interpretation of a byte list. -/
def fromLE (bs : List Nat) : Nat := bs.foldr (fun b acc => acc * 256 + b) 0

/-- Split a byte string into chunks of `size` bytes (`fuel` bounds recursion;
callers pass a fuel at least the list length). -/
def chunksOf (size : Nat) : Nat → List Nat → List (List Nat)
  | 0, _ => []
  | _, [] => []
  | fuel + 1, l => l.take size :: chunksOf size fuel (l.drop size)

/-! ## MD5 (Go `crypto/md5`)

The seed codec signs with HMAC-MD5 (`hmac.New(md5.New, secret)`).  MD5 is
implemented here in full (RFC 1321): 64-byte blocks, little-endian words,
64 rounds, 16-byte digest. -/

/-- MD5 round constants `⌊|sin(i+1)|·2^32⌋`. -/
def md5K : List Nat :=
  [3614090360, 3905402710, 606105819, 3250441966,
   4118548399, 1200080426, 2821735955, 4249261313,
   1770035416, 2336552879, 4294925233, 2304563134,
   1804603682, 4254626195, 2792965006, 1236535329,
   4129170786, 3225465664, 643717713, 3921069994,
   3593408605, 38016083, 3634488961, 3889429448,
   568446438, 3275163606, 4107603335, 1163531501,
   2850285829, 4243563512, 1735328473, 2368359562,
   4294588738, 2272392833, 1839030562, 4259657740,
   2763975236, 1272893353, 4139469664, 3200236656,
   681279174, 3936430074, 3572445317, 76029189,
   3654602809, 3873151461, 530742520, 3299628645,
   4096336452, 1126891415, 2878612391, 4237533241,
   1700485571, 2399980690, 4293915773, 2240044497,
   1873313359, 4264355552, 2734768916, 1309151649,
   4149444226, 3174756917, 718787259, 3951481745]

/-- MD5 per-round left-rotation amounts. -/
def md5S : List Nat :=
  [7, 12, 17, 22, 7, 12, 17, 22, 7, 12, 17, 22, 7, 12, 17, 22,
   5, 9, 14, 20, 5, 9, 14, 20, 5, 9, 14, 20, 5, 9, 14, 20,
   4, 11, 16, 23, 4, 11, 16, 23, 4, 11, 16, 23, 4, 11, 16, 23,
   6, 10, 15, 21, 6, 10, 15, 21, 6, 10, 15, 21, 6, 10, 15, 21]

/-- One MD5 round `i` on state `(a,b,c,d)` with message words `m`. -/
def md5Round (m : List Nat) (st : Nat × Nat × Nat × Nat) (i : Nat) :
    Nat × Nat × Nat × Nat :=
  let (a, b, c, d) := st
  let (f, g) :=
    if i < 16 then ((b &&& c) ||| (not32 b &&& d), i)
    else if i < 32 then ((d &&& b) ||| (not32 d &&& c), (5 * i + 1) % 16)
    else if i < 48 then (b ^^^ c ^^^ d, (3 * i + 5) % 16)
    else (c ^^^ (b ||| not32 d), (7 * i) % 16)
  let f := mask32 (f + a + md5K.getD i 0 + m.getD g 0)
  (d, mask32 (b + rotl32 f (md5S.getD i 0)), b, c)

/-- Compress one 64-byte MD5 block into the running state. -/
def md5Block (st : Nat × Nat × Nat × Nat) (block : List Nat) :
    Nat × Nat × Nat × Nat :=
  let m := (List.range 16).map fun j => fromLE ((block.drop (4 * j)).take 4)
  let (h0, h1, h2, h3) := st
  let (a, b, c, d) := (List.range 64).foldl (md5Round m) (h0, h1, h2, h3)
  (mask32 (h0 + a), mask32 (h1 + b), mask32 (h2 + c), mask32 (h3 + d))

/-- MD5 padding: `0x80`, zeros to 56 mod 64, then the bit length as a
little-endian 64-bit integer. -/
def md5Pad (msg : List Nat) : List Nat :=
  let L := msg.length
  let zeros := (119 - L % 64) % 64
  msg ++ 0x80 :: List.replicate zeros 0 ++
    (le32 (mask64 (8 * L)) ++ le32 (mask64 (8 * L) >>> 32))

/-- MD5 digest (16 bytes) of a byte string. -/
def md5 (msg : List Nat) : List Nat :=
  let padded := md5Pad msg
  let blocks := chunksOf 64 padded.length padded
  let (h0, h1, h2, h3) :=
    blocks.foldl md5Block (0x67452301, 0xefcdab89, 0x98badcfe, 0x10325476)
  le32 h0 ++ le32 h1 ++ le32 h2 ++ le32 h3

/-! ## HMAC-MD5 (Go `crypto/hmac` over `crypto/md5`)

`hmac.New(md5.New, secret)`: RFC 2104 HMAC with block size 64 and a
16-byte output (`h.Size() == 16`). -/

/-- Normalize the HMAC key: hash it if longer than the block size, then
zero-pad to 64 bytes. -/
def hmacKey (key : List Nat) : List Nat :=
  let k := if key.length > 64 then md5 key else key
  k ++ List.replicate (64 - k.length) 0

/-- HMAC-MD5 of `msg` under `key`. -/
def hmacMd5 (key msg : List Nat) : List Nat :=
  let k := hmacKey key
  let ipad := k.map (fun b => b ^^^ 0x36)
  let opad := k.map (fun b => b ^^^ 0x5c)
  md5 (opad ++ md5 (ipad ++ msg))

/-! ## SHA-512 (Go `crypto/sha512`)

The solution checker hashes with `sha512.New()`.  Implemented in full
(FIPS 180-4): 128-byte blocks, big-endian 64-bit words, 80 rounds,
64-byte digest. -/

/-- SHA-512 round constants: fractional parts of cube roots of the first
80 primes. -/
def sha512K : List Nat :=
  [4794697086780616226, 8158064640168781261, 13096744586834688815, 16840607885511220156,
   4131703408338449720, 6480981068601479193, 10538285296894168987, 12329834152419229976,
   15566598209576043074, 1334009975649890238, 2608012711638119052, 6128411473006802146,
   8268148722764581231, 9286055187155687089, 11230858885718282805, 13951009754708518548,
   16472876342353939154, 17275323862435702243, 1135362057144423861, 2597628984639134821,
   3308224258029322869, 5365058923640841347, 6679025012923562964, 8573033837759648693,
   10970295158949994411, 12119686244451234320, 12683024718118986047, 13788192230050041572,
   14330467153632333762, 15395433587784984357, 489312712824947311, 1452737877330783856,
   2861767655752347644, 3322285676063803686, 5560940570517711597, 5996557281743188959,
   7280758554555802590, 8532644243296465576, 9350256976987008742, 10552545826968843579,
   11727347734174303076, 12113106623233404929, 14000437183269869457, 14369950271660146224,
   15101387698204529176, 15463397548674623760, 17586052441742319658, 1182934255886127544,
   1847814050463011016, 2177327727835720531, 2830643537854262169, 3796741975233480872,
   4115178125766777443, 5681478168544905931, 6601373596472566643, 7507060721942968483,
   8399075790359081724, 8693463985226723168, 9568029438360202098, 10144078919501101548,
   10430055236837252648, 11840083180663258601, 13761210420658862357, 14299343276471374635,
   14566680578165727644, 15097957966210449927, 16922976911328602910, 17689382322260857208,
   500013540394364858, 748580250866718886, 1242879168328830382, 1977374033974150939,
   2944078676154940804, 3659926193048069267, 4368137639120453308, 4836135668995329356,
   5532061633213252278, 6448918945643986474, 6902733635092675308, 7801388544844847127]

/-- The 8 big-endian bytes of a 64-bit word (digest serialization). -/
def beBytes64 (v : Nat) : List Nat := be64 v

/-- Extend the 16 message words of a block to the 80-entry schedule. -/
def sha512Schedule (w16 : List Nat) : List Nat :=
  (List.range 64).foldl
    (fun w t =>
      let i := t + 16
      let w15 := w.getD (i - 15) 0
      let w2 := w.getD (i - 2) 0
      let s0 := rotr64 w15 1 ^^^ rotr64 w15 8 ^^^ (w15 >>> 7)
      let s1 := rotr64 w2 19 ^^^ rotr64 w2 61 ^^^ (w2 >>> 6)
      w ++ [mask64 (w.getD (i - 16) 0 + s0 + w.getD (i - 7) 0 + s1)])
    w16

/-- One SHA-512 round. -/
def sha512Round (w : List Nat) (st : List Nat) (i : Nat) : List Nat :=
  match st with
  | [a, b, c, d, e, f, g, h] =>
    let S1 := rotr64 e 14 ^^^ rotr64 e 18 ^^^ rotr64 e 41
    let ch := (e &&& f) ^^^ (not64 e &&& g)
    let t1 := mask64 (h + S1 + ch + sha512K.getD i 0 + w.getD i 0)
    let S0 := rotr64 a 28 ^^^ rotr64 a 34 ^^^ rotr64 a 39
    let maj := (a &&& b) ^^^ (a &&& c) ^^^ (b &&& c)
    let t2 := mask64 (S0 + maj)
    [mask64 (t1 + t2), a, b, c, mask64 (d + t1), e, f, g]
  | st => st

/-- Compress one 128-byte SHA-512 block into the running state. -/
def sha512Block (st : List Nat) (block : List Nat) : List Nat :=
  let w16 := (List.range 16).map fun j => fromBE ((block.drop (8 * j)).take 8)
  let w := sha512Schedule w16
  let st' := (List.range 80).foldl (sha512Round w) st
  (st.zip st').map fun p => mask64 (p.1 + p.2)

/-- SHA-512 padding: `0x80`, zeros to 112 mod 128, then the bit length as
a big-endian 128-bit integer. -/
def sha512Pad (msg : List Nat) : List Nat :=
  let L := msg.length
  let zeros := (239 - L % 128) % 128
  msg ++ 0x80 :: List.replicate zeros 0 ++ (be64 ((8 * L) >>> 64) ++ be64 (8 * L))

/-- SHA-512 digest (64 bytes) of a byte string. -/
def sha512 (msg : List Nat) : List Nat :=
  let padded := sha512Pad msg
  let blocks := chunksOf 128 padded.length padded
  let st := blocks.foldl sha512Block
    [7640891576956012808, 13503953896175478587, 4354685564936845355,
     11912009170470909681, 5840696475078001361, 11170449401992604703,
     2270897969802886507, 6620516959819538809]
  st.foldr (fun h acc => beBytes64 h ++ acc) []

/-! ## Time (Go `time` / `github.com/tilinna/clock`)

A `time.Time` is an `Int` count of nanoseconds since the Unix epoch.  Go
stores a time as whole seconds plus a nanosecond offset in `[0, 10^9)`,
so `Time.Unix()` is the floor (Euclidean) division of the nanosecond
count by `10^9`, and `time.Unix(sec, 0)` is `sec * 10^9`.  The manager
and the store share one clock (as they are constructed in this
repository), so in each operation a single `now` models the instant both
of them read. -/

/-- `time.Time.Unix()`: seconds since the epoch, rounding toward `-∞`
(Euclidean division, since the nanosecond offset is non-negative). -/
def timeUnix (t : Int) : Int := t / 1000000000

/-- `time.Unix(sec, 0)` as nanoseconds. -/
def timeFromUnix (sec : Int) : Int := sec * 1000000000

/-! ## Seed codec (`challengeParams`, `newSeed`, `challengeParamsFromSeed`) -/

/-- `challengeParams`: the data a challenge seed carries.  `target` is a
`uint32` (meaningful values `< 2^32`), `expiresAt` an `int64` of Unix
seconds (meaningful values in `[-2^63, 2^63)`), `random` a byte string. -/
structure challengeParams where
  target : Nat
  expiresAt : Int
  random : List Nat
deriving DecidableEq, Repr

/-- Two's-complement encoding of an `int64` as a `uint64`, as
`binary.Write` big-endian serialization interprets it. -/
def encInt64 (e : Int) : Nat := (e.emod (2 ^ 64)).toNat

/-- Decoding of a `uint64` bit pattern back into an `int64`. -/
def decInt64 (u : Nat) : Int :=
  if u < 2 ^ 63 then (u : Int) else (u : Int) - 2 ^ 64

/-- `challengeParams.MarshalBinary`: big-endian `target` (4 bytes), then
big-endian `expiresAt` (8 bytes), then `random` verbatim.  (The Go method
can only error on a failed `binary.Write` into a `bytes.Buffer`, which
cannot happen for these fixed-width fields, so the embedding is total.) -/
def MarshalBinary (c : challengeParams) : List Nat :=
  be32 c.target ++ be64 (encInt64 c.expiresAt) ++ c.random

/-- `challengeParams.UnmarshalBinary`: read `target` (4 bytes) and
`expiresAt` (8 bytes); whatever is left is `random`.  `binary.Read`
fails, and the method returns that error (`none` here), when the buffer
holds fewer than the 12 fixed bytes. -/
def UnmarshalBinary (b : List Nat) : Option challengeParams :=
  if b.length < 12 then none
  else some
    { target := fromBE (b.take 4)
      expiresAt := decInt64 (fromBE ((b.drop 4).take 8))
      random := b.drop 12 }

/-- `newSeed`: `(version 0) ‖ HMAC-MD5(secret, MarshalBinary c) ‖
MarshalBinary c`.  (The Go function propagates `MarshalBinary`'s error,
which cannot occur, so the embedding is total.) -/
def newSeed (c : challengeParams) (secret : List Nat) : List Nat :=
  0 :: (hmacMd5 secret (MarshalBinary c) ++ MarshalBinary c)

/-- The errors `challengeParamsFromSeed` can return: `errMalformedSeed`,
or an unmarshaling error wrapped by `fmt.Errorf("unmarshaling challenge
parameters: %w", err)`. -/
inductive SeedErr where
  | malformedSeed
  | unmarshalErr
deriving DecidableEq, Repr

/-- `challengeParamsFromSeed`: reject (as `errMalformedSeed`) a seed
shorter than `1 + h.Size()` bytes or whose first byte is not version 0;
split off the 16-byte signature; reject on HMAC mismatch; unmarshal the
remainder. -/
def challengeParamsFromSeed (seed secret : List Nat) :
    Except SeedErr challengeParams :=
  if seed.length < 16 + 1 ∨ seed.headD 1 ≠ 0 then
    .error .malformedSeed
  else if (seed.drop 1).take 16 = hmacMd5 secret ((seed.drop 1).drop 16) then
    match UnmarshalBinary ((seed.drop 1).drop 16) with
    | some c => .ok c
    | none => .error .unmarshalErr
  else
    .error .malformedSeed

/-! ## Challenge and solution checking -/

/-- `Challenge`: the seed plus the (duplicated) difficulty target. -/
structure Challenge where
  Seed : List Nat
  Target : Nat
deriving DecidableEq, Repr

/-- `SolutionChecker.Check`: sha512 of `Seed ‖ solution`; the first 4
bytes of the digest as a big-endian `uint32` must be less than `Target`.
(The Go method's `hash.Hash` field and `sum` buffer are allocation
reuse; writing the two byte strings into the hash then summing computes
exactly the digest of their concatenation.) -/
def SolutionChecker.Check (challenge : Challenge) (solution : List Nat) : Bool :=
  let sum := sha512 (challenge.Seed ++ solution)
  beUint32 (sum.take 4) < challenge.Target

/-- The candidate-drawing loop of `Solve`, starting at draw `i` with
`fuel` draws remaining.  `gen k` models the bytes `rand.Read` places in
the `len(Seed)`-byte buffer on the `k`-th iteration. -/
def solveFrom (challenge : Challenge) (gen : Nat → List Nat) :
    Nat → Nat → Option (List Nat)
  | _, 0 => none
  | i, fuel + 1 =>
    let b := gen i
    if SolutionChecker.Check challenge b then some b
    else solveFrom challenge gen (i + 1) fuel

/-- `Solve`: repeatedly draw random candidate bytes until `Check`
accepts one.  The Go loop is unbounded; `fuel` bounds the embedding, and
`none` models not having found a solution within `fuel` draws. -/
def Solve (challenge : Challenge) (gen : Nat → List Nat) (fuel : Nat) :
    Option (List Nat) :=
  solveFrom challenge gen 0 fuel

/-! ## Verified-solution store (`inMemStore`) -/

/-- A Go channel used purely as a close signal (`closeCh`). -/
structure GoChannel where
  isClosed : Bool
deriving DecidableEq, Repr

/-- Go's `close` builtin on a channel: closing an already-closed channel
panics, which the embedding models as `none`. -/
def closeChannel (c : GoChannel) : Option GoChannel :=
  if c.isClosed then none else some { isClosed := true }

/-- `memStoreKey`: the exact (seed, solution) byte-pair. -/
structure memStoreKey where
  seed : List Nat
  solution : List Nat
deriving DecidableEq, Repr

/-- First-match lookup in an association list; together with
cons-shadowing insertion this models the Go map `m map[memStoreKey]time.Time`. -/
def storeLookup : List (memStoreKey × Int) → memStoreKey → Option Int
  | [], _ => none
  | (k, e) :: rest, k' => if k' = k then some e else storeLookup rest k'

/-- `inMemStore`: the map of verified pairs and the close channel.  (The
mutex guards concurrent access and the spin goroutine runs eviction in
the background; sequentially, state is the map plus the channel.) -/
structure inMemStore where
  m : List (memStoreKey × Int)
  closeCh : GoChannel
deriving DecidableEq, Repr

/-- `NewMemoryStore`: empty map, open close-channel. -/
def NewMemoryStore : inMemStore := { m := [], closeCh := { isClosed := false } }

/-- `inMemStore.SetSolution`: record/overwrite the pair's expiry;
`return nil` (the second component is the returned error). -/
def inMemStore.SetSolution (s : inMemStore) (seed solution : List Nat)
    (expiresAt : Int) : inMemStore × Option Unit :=
  ({ s with m := (⟨seed, solution⟩, expiresAt) :: s.m }, none)

/-- `inMemStore.IsSolution`: true iff the pair is present and its
recorded expiry is strictly after `now` (`expiresAt.After(now)`). -/
def inMemStore.IsSolution (s : inMemStore) (seed solution : List Nat)
    (now : Int) : Bool :=
  match storeLookup s.m ⟨seed, solution⟩ with
  | some expiresAt => now < expiresAt
  | none => false

/-- One tick of the `spin` eviction goroutine at time `now`: delete every
entry whose expiry is not after `now` (`!now.Before(expiresAt)`). -/
def inMemStore.spinTick (s : inMemStore) (now : Int) : inMemStore :=
  { s with m := s.m.filter fun kv => now < kv.2 }

/-- `inMemStore.Close`: `close(s.closeCh); return nil`.  `none` models
the panic Go raises when `closeCh` is already closed. -/
def inMemStore.Close (s : inMemStore) : Option (inMemStore × Option Unit) :=
  (closeChannel s.closeCh).map fun ch => ({ s with closeCh := ch }, none)

/-! ## Challenge manager -/

/-- `ManagerOpts`: difficulty target and challenge lifetime.
`ChallengeTimeout` is a `time.Duration` in nanoseconds.  (The `Clock`
field is the time source; time is passed explicitly to each operation
here.)  A `none` at use sites models a nil `*ManagerOpts`. -/
structure ManagerOpts where
  Target : Nat
  ChallengeTimeout : Int
deriving DecidableEq, Repr

/-- `ManagerOpts.withDefaults`: a nil receiver becomes the zero value;
a zero `Target` becomes `0x00FFFFFF`; a zero `ChallengeTimeout` becomes
12 hours. -/
def ManagerOpts.withDefaults (o : Option ManagerOpts) : ManagerOpts :=
  let o := o.getD { Target := 0, ChallengeTimeout := 0 }
  { Target := if o.Target = 0 then 0x00FFFFFF else o.Target
    ChallengeTimeout :=
      if o.ChallengeTimeout = 0 then 12 * 3600 * 1000000000
      else o.ChallengeTimeout }

/-- The `manager` struct: signing secret and (defaulted) options.  The
store is threaded explicitly through `CheckSolution`; the
`solutionCheckerPool` is allocation reuse with no functional content. -/
structure manager where
  secret : List Nat
  opts : ManagerOpts
deriving DecidableEq, Repr

/-- `NewManager` applies `withDefaults` to the options. -/
def NewManager (secret : List Nat) (opts : Option ManagerOpts) : manager :=
  { secret := secret, opts := ManagerOpts.withDefaults opts }

/-- `manager.NewChallenge` at time `now` (nanoseconds): parameters are
the configured target, `Clock.Now().Add(ChallengeTimeout).Unix()`, and 8
fresh random bytes (`random` models what `rand.Read` produced). -/
def manager.NewChallenge (m : manager) (now : Int) (random : List Nat) :
    Challenge :=
  let c : challengeParams :=
    { target := m.opts.Target
      expiresAt := timeUnix (now + m.opts.ChallengeTimeout)
      random := random }
  { Seed := newSeed c m.secret, Target := c.target }

/-- The errors `manager.CheckSolution` can return: `ErrInvalidSolution`,
`ErrExpiredSeed`, a `challengeParamsFromSeed` error wrapped by
`fmt.Errorf("parsing challenge parameters from seed: %w", err)`, or a
store error wrapped by `fmt.Errorf("marking solution as solved: %w",
err)`. -/
inductive CheckErr where
  | invalidSolution
  | expiredSeed
  | parseErr (inner : SeedErr)
  | storeErr
deriving DecidableEq, Repr

/-- `manager.CheckSolution` at time `now` (nanoseconds), threading the
store state: oversize guard, store fast path, seed parsing, expiry
check, hash check, store insert.  Returns the error (`none` = success)
and the store state afterwards. -/
def manager.CheckSolution (m : manager) (st : inMemStore) (now : Int)
    (seed solution : List Nat) : Option CheckErr × inMemStore :=
  if solution.length > seed.length then
    (some .invalidSolution, st)
  else if st.IsSolution seed solution now then
    (none, st)
  else
    match challengeParamsFromSeed seed m.secret with
    | .error e => (some (.parseErr e), st)
    | .ok c =>
      if c.expiresAt ≤ timeUnix now then
        (some .expiredSeed, st)
      else if SolutionChecker.Check { Seed := seed, Target := c.target } solution then
        match st.SetSolution seed solution (timeFromUnix c.expiresAt) with
        | (st', some _) => (some .storeErr, st')
        | (st', none) => (none, st')
      else
        (some .invalidSolution, st)

instance : DecidableEq (Except SeedErr challengeParams) :=
  fun a b =>
    match a, b with
    | .ok x, .ok y =>
      if h : x = y then .isTrue (by rw [h]) else .isFalse (by simp [h])
    | .error x, .error y =>
      if h : x = y then .isTrue (by rw [h]) else .isFalse (by simp [h])
    | .ok _, .error _ => .isFalse (by simp)
    | .error _, .ok _ => .isFalse (by simp)

/-! ## Concrete values used to exercise the definitions

The secret and parameter values mirror the repository's own tests
(secret `"shhh"`, small parameter values, a maximal target so that the
hash check passes on the first candidate). -/

/-- The test secret `"shhh"` as bytes. -/
def secretW : List Nat := [115, 104, 104, 104]

/-- Challenge parameters with the maximal `uint32` target (every
candidate whose leading digest word is not `0xFFFFFFFF` passes) and
expiry at Unix second 1. -/
def paramsW : challengeParams :=
  { target := 4294967295, expiresAt := 1, random := [] }

/-- The signed seed for `paramsW` under `secretW`. -/
def seedW : List Nat := newSeed paramsW secretW

/-- The manager holding `secretW` (options defaulted). -/
def mgrW : manager := NewManager secretW none

/-- The store state after `(seedW, [])` is recorded with expiry
`time.Unix(1, 0)`. -/
def storeW : inMemStore :=
  { m := [(⟨seedW, []⟩, 1000000000)], closeCh := { isClosed := false } }

set_option maxRecDepth 100000

/-! ## Supporting lemmas -/

/-- The MD5 digest is always 16 bytes, so `hmac.New(md5.New, _).Size()`
is 16. -/
theorem md5_length (m : List Nat) : (md5 m).length = 16 := by
  simp [md5, le32]

theorem hmacMd5_length (key msg : List Nat) : (hmacMd5 key msg).length = 16 :=
  md5_length _

theorem sha512Round_length (w st : List Nat) (i : Nat) :
    (sha512Round w st i).length = st.length := by
  unfold sha512Round
  split <;> simp_all

theorem sha512_foldl_round_length (w l st : List Nat) :
    (l.foldl (sha512Round w) st).length = st.length := by
  induction l generalizing st with
  | nil => rfl
  | cons i l ih => rw [List.foldl_cons, ih, sha512Round_length]

theorem sha512Block_length (st block : List Nat) :
    (sha512Block st block).length = st.length := by
  unfold sha512Block
  rw [List.length_map, List.length_zip, sha512_foldl_round_length, min_self]

theorem sha512_foldl_block_length (blocks : List (List Nat)) (st : List Nat) :
    (blocks.foldl sha512Block st).length = st.length := by
  induction blocks generalizing st with
  | nil => rfl
  | cons b bs ih => rw [List.foldl_cons, ih, sha512Block_length]

/-- The SHA-512 digest is always 64 bytes. -/
theorem sha512_length (m : List Nat) : (sha512 m).length = 64 := by
  have h8 : ∀ st : List Nat,
      (st.foldr (fun h acc => beBytes64 h ++ acc) []).length = 8 * st.length := by
    intro st
    induction st with
    | nil => rfl
    | cons h t ih =>
      rw [List.foldr_cons, List.length_append, ih]
      simp [beBytes64, be64]
      omega
  unfold sha512
  rw [h8, sha512_foldl_block_length]
  rfl

theorem fromBE_be32 (v : Nat) (h : v < 2 ^ 32) : fromBE (be32 v) = v := by
  simp [fromBE, be32, Nat.shiftRight_eq_div_pow]
  omega

theorem fromBE_be64 (v : Nat) (h : v < 2 ^ 64) : fromBE (be64 v) = v := by
  simp [fromBE, be64, Nat.shiftRight_eq_div_pow]
  omega

theorem encInt64_lt (e : Int) : encInt64 e < 2 ^ 64 := by
  unfold encInt64
  have h1 : 0 ≤ e.emod (2 ^ 64) := Int.emod_nonneg e (by positivity)
  have h2 : e.emod (2 ^ 64) < 2 ^ 64 := Int.emod_lt_of_pos e (by positivity)
  omega

/-- Round trip of the two's-complement `int64` encoding, for values in
the `int64` range. -/
theorem decInt64_encInt64 (e : Int) (h1 : -(2 : Int) ^ 63 ≤ e)
    (h2 : e < 2 ^ 63) : decInt64 (encInt64 e) = e := by
  unfold decInt64 encInt64
  rcases le_or_lt 0 e with he | he
  · have hmod : e.emod (2 ^ 64) = e := Int.emod_eq_of_lt he (by omega)
    rw [hmod]
    split <;> omega
  · have h0 : (0 : Int) ≤ e + 2 ^ 64 := by omega
    have hlt : e + 2 ^ 64 < 2 ^ 64 := by omega
    have hmod : e.emod (2 ^ 64) = e + 2 ^ 64 := by
      have ha : (e + 2 ^ 64 * 1) % (2 ^ 64) = e % (2 ^ 64) :=
        Int.add_mul_emod_self_left e (2 ^ 64) 1
      have hb : (e + 2 ^ 64 * 1) % (2 ^ 64) = e + 2 ^ 64 := by
        rw [mul_one]
        exact Int.emod_eq_of_lt h0 hlt
      show e % (2 ^ 64) = e + 2 ^ 64
      rw [← ha, hb]
    rw [hmod]
    split <;> omega

theorem MarshalBinary_length (c : challengeParams) :
    (MarshalBinary c).length = 12 + c.random.length := by
  simp [MarshalBinary, be32, be64]
  omega

/-- Binary round trip of the challenge-parameter codec. -/
theorem UnmarshalBinary_MarshalBinary (c : challengeParams)
    (ht : c.target < 2 ^ 32) (h1 : -(2 : Int) ^ 63 ≤ c.expiresAt)
    (h2 : c.expiresAt < 2 ^ 63) :
    UnmarshalBinary (MarshalBinary c) = some c := by
  have hsplit : MarshalBinary c =
      be32 c.target ++ (be64 (encInt64 c.expiresAt) ++ c.random) := by
    rw [MarshalBinary, List.append_assoc]
  have hlen : ¬ (MarshalBinary c).length < 12 := by
    rw [MarshalBinary_length]; omega
  have htake4 : (MarshalBinary c).take 4 = be32 c.target := by
    rw [hsplit]
    exact List.take_left' (by simp [be32])
  have hdrop4 : (MarshalBinary c).drop 4 =
      be64 (encInt64 c.expiresAt) ++ c.random := by
    rw [hsplit]
    exact List.drop_left' (by simp [be32])
  have htake8 : ((MarshalBinary c).drop 4).take 8 = be64 (encInt64 c.expiresAt) := by
    rw [hdrop4]
    exact List.take_left' (by simp [be64])
  have hdrop12 : (MarshalBinary c).drop 12 = c.random := by
    have h48 : ((MarshalBinary c).drop 4).drop 8 = (MarshalBinary c).drop 12 := by
      rw [List.drop_drop]
    rw [← h48, hdrop4]
    exact List.drop_left' (by simp [be64])
  unfold UnmarshalBinary
  rw [if_neg hlen, htake4, htake8, hdrop12, fromBE_be32 _ ht,
    fromBE_be64 _ (encInt64_lt _), decInt64_encInt64 _ h1 h2]

/-- Opening a freshly signed seed with the same secret recovers the
parameters. -/
theorem challengeParamsFromSeed_newSeed (c : challengeParams)
    (secret : List Nat) (ht : c.target < 2 ^ 32)
    (h1 : -(2 : Int) ^ 63 ≤ c.expiresAt) (h2 : c.expiresAt < 2 ^ 63) :
    challengeParamsFromSeed (newSeed c secret) secret = Except.ok c := by
  have hmac16 : (hmacMd5 secret (MarshalBinary c)).length = 16 :=
    hmacMd5_length _ _
  have hdrop1 : (newSeed c secret).drop 1 =
      hmacMd5 secret (MarshalBinary c) ++ MarshalBinary c := rfl
  have htake : ((newSeed c secret).drop 1).take 16 =
      hmacMd5 secret (MarshalBinary c) := by
    rw [hdrop1]
    exact List.take_left' hmac16
  have hdrop : ((newSeed c secret).drop 1).drop 16 = MarshalBinary c := by
    rw [hdrop1]
    exact List.drop_left' hmac16
  have hne : ¬ ((newSeed c secret).length < 16 + 1 ∨
      (newSeed c secret).headD 1 ≠ 0) := by
    simp [newSeed, hmac16]
  rw [challengeParamsFromSeed, if_neg hne, htake, hdrop,
    if_pos rfl, UnmarshalBinary_MarshalBinary c ht h1 h2]

/-! ## Claim theorems -/

/-- C1: for every `ChallengeParameters` value `p` (`target` a `uint32`,
`expiresAt` an `int64`, `random` a byte sequence) and every secret `s`,
signing `p` with `s` (`newSeed`) and then opening the resulting seed with
the same secret (`challengeParamsFromSeed`) succeeds and returns
parameters equal to `p`. -/
theorem seed_open_sign_roundtrip (p : challengeParams) (s : List Nat)
    (ht : p.target < 2 ^ 32) (h1 : -(2 : Int) ^ 63 ≤ p.expiresAt)
    (h2 : p.expiresAt < 2 ^ 63) :
    challengeParamsFromSeed (newSeed p s) s = Except.ok p :=
  challengeParamsFromSeed_newSeed p s ht h1 h2

/-- Witness for C1 at `p = ⟨1, 3, [0, 1, 2]⟩` and secret `"shhh"`. -/
theorem seed_open_sign_roundtrip_witness :
    (1 : Nat) < 2 ^ 32 ∧ (-(2 : Int) ^ 63 ≤ 3 ∧ (3 : Int) < 2 ^ 63) ∧
    challengeParamsFromSeed
      (newSeed ⟨1, 3, [0, 1, 2]⟩ [115, 104, 104, 104]) [115, 104, 104, 104] =
      Except.ok ⟨1, 3, [0, 1, 2]⟩ :=
  ⟨by norm_num, ⟨by norm_num, by norm_num⟩,
    seed_open_sign_roundtrip ⟨1, 3, [0, 1, 2]⟩ [115, 104, 104, 104]
      (by norm_num) (by norm_num) (by norm_num)⟩

/-- C8: signing is deterministic — `newSeed` is a pure function of the
parameters and the secret (two calls on equal arguments produce
byte-identical seeds), and its output is exactly the version byte
followed by the HMAC and the serialized parameters: no randomness is
introduced by signing itself. -/
theorem newSeed_deterministic (p : challengeParams) (s : List Nat) :
    newSeed p s = newSeed p s ∧
    newSeed p s = 0 :: (hmacMd5 s (MarshalBinary p) ++ MarshalBinary p) :=
  ⟨rfl, rfl⟩

/-- `binary.BigEndian.Uint32` agrees with the big-endian value of the
first four bytes, when at least four bytes are present. -/
theorem beUint32_take_eq_fromBE (l : List Nat) (h : 4 ≤ l.length) :
    beUint32 (l.take 4) = fromBE (l.take 4) := by
  match l with
  | a :: b :: c :: d :: rest =>
    simp [beUint32, fromBE]
    ring
  | [] | [_] | [_, _] | [_, _, _] => simp at h

/-- C3: `Check(challenge, solution)` is true iff the first 4 bytes of
`sha512(challenge.Seed ‖ solution)`, read as a big-endian unsigned
32-bit integer `v`, satisfy `v < challenge.Target`; and every byte
sequence returned by `Solve` satisfies `Check` for that challenge. -/
theorem check_iff_target_and_solve_sound (ch : Challenge) (sol : List Nat)
    (gen : Nat → List Nat) (fuel : Nat) (b : List Nat) :
    (SolutionChecker.Check ch sol = true ↔
      fromBE ((sha512 (ch.Seed ++ sol)).take 4) < ch.Target) ∧
    (Solve ch gen fuel = some b → SolutionChecker.Check ch b = true) := by
  constructor
  · have h4 : 4 ≤ (sha512 (ch.Seed ++ sol)).length := by
      rw [sha512_length]; omega
    rw [SolutionChecker.Check]
    simp only [decide_eq_true_eq]
    rw [beUint32_take_eq_fromBE _ h4]
  · have key : ∀ fuel i b, solveFrom ch gen i fuel = some b →
        SolutionChecker.Check ch b = true := by
      intro fuel
      induction fuel with
      | zero => intro i b h; simp [solveFrom] at h
      | succ n ih =>
        intro i b h
        rw [solveFrom] at h
        split at h
        · rename_i hchk
          cases h
          exact hchk
        · exact ih _ _ h
    exact key fuel 0 b

/-- C5: an oversized solution (`len(solution) > len(seed)`) is rejected
with ErrInvalidSolution immediately: the result is the same for every
store state, secret and clock value — no store lookup, seed parsing, or
hashing takes part — and the store is returned unchanged. -/
theorem checkSolution_oversized_rejected (m : manager) (st : inMemStore)
    (now : Int) (seed solution : List Nat)
    (h : solution.length > seed.length) :
    m.CheckSolution st now seed solution =
      (some CheckErr.invalidSolution, st) := by
  rw [manager.CheckSolution, if_pos h]

/-- Witness for C5: a 1-byte solution against the empty seed. -/
theorem checkSolution_oversized_rejected_witness :
    ([0] : List Nat).length > ([] : List Nat).length ∧
    mgrW.CheckSolution NewMemoryStore 0 [] [0] =
      (some CheckErr.invalidSolution, NewMemoryStore) :=
  ⟨by decide, checkSolution_oversized_rejected mgrW NewMemoryStore 0 [] [0]
    (by decide)⟩

/-- C6: `SetSolution` returns no error and records/overwrites the expiry
for exactly that (seed, solution) pair, leaving every other key's
binding unchanged; `IsSolution` is true iff a record exists for exactly
that pair and its recorded expiry is strictly after the current time. -/
theorem memStore_set_get_semantics (s : inMemStore)
    (seed solution : List Nat) (e now : Int) (k' : memStoreKey)
    (hk : k' ≠ ⟨seed, solution⟩) :
    (s.SetSolution seed solution e).2 = none ∧
    storeLookup (s.SetSolution seed solution e).1.m ⟨seed, solution⟩ = some e ∧
    storeLookup (s.SetSolution seed solution e).1.m k' = storeLookup s.m k' ∧
    (s.IsSolution seed solution now = true ↔
      ∃ e', storeLookup s.m ⟨seed, solution⟩ = some e' ∧ now < e') := by
  refine ⟨rfl, ?_, ?_, ?_⟩
  · simp [inMemStore.SetSolution, storeLookup]
  · simp [inMemStore.SetSolution, storeLookup, hk]
  · rw [inMemStore.IsSolution]
    cases hl : storeLookup s.m ⟨seed, solution⟩ <;> simp [hl]

/-- Witness for C6 on a store holding one other binding. -/
theorem memStore_set_get_semantics_witness :
    (⟨[2], [3]⟩ : memStoreKey) ≠ (⟨[1], [2]⟩ : memStoreKey) ∧
    ((inMemStore.SetSolution ⟨[(⟨[2], [3]⟩, 5)], ⟨false⟩⟩ [1] [2] 7).2 = none ∧
      storeLookup (inMemStore.SetSolution ⟨[(⟨[2], [3]⟩, 5)], ⟨false⟩⟩ [1] [2] 7).1.m
        ⟨[1], [2]⟩ = some 7 ∧
      storeLookup (inMemStore.SetSolution ⟨[(⟨[2], [3]⟩, 5)], ⟨false⟩⟩ [1] [2] 7).1.m
        ⟨[2], [3]⟩ = storeLookup [(⟨[2], [3]⟩, 5)] ⟨[2], [3]⟩ ∧
      ((inMemStore.IsSolution ⟨[(⟨[2], [3]⟩, 5)], ⟨false⟩⟩ [1] [2] 4) = true ↔
        ∃ e', storeLookup [(⟨[2], [3]⟩, 5)] ⟨[1], [2]⟩ = some e' ∧ 4 < e')) :=
  ⟨by decide,
    memStore_set_get_semantics ⟨[(⟨[2], [3]⟩, 5)], ⟨false⟩⟩ [1] [2] 7 4
      ⟨[2], [3]⟩ (by decide)⟩

/-- C2 counterexample: at seed `[]` (structurally invalid: shorter than
1 + MAC size) with empty solution and a fresh store, `CheckSolution`
fails with the wrapped `errMalformedSeed` parse error — not with
ErrInvalidSolution, so the failure is distinguishable from an ordinary
wrong guess. -/
theorem checkSolution_malformed_counterexample :
    mgrW.CheckSolution NewMemoryStore 0 [] [] =
      (some (CheckErr.parseErr SeedErr.malformedSeed), NewMemoryStore) ∧
    CheckErr.parseErr SeedErr.malformedSeed ≠ CheckErr.invalidSolution :=
  ⟨rfl, by decide⟩

/-- C2 amended: a structurally invalid seed (shorter than `1 + 16`
bytes, or first byte not version 0) or one whose HMAC signature does not
verify against the manager's secret makes `CheckSolution` fail —
provided the pair is not already cached and the solution is not
oversized — but with the `errMalformedSeed` error wrapped in a parsing
error, which is distinguishable from ErrInvalidSolution, rather than
with ErrInvalidSolution itself as the claim states. -/
theorem checkSolution_malformed_wrapped_error (m : manager)
    (st : inMemStore) (now : Int) (seed solution : List Nat)
    (hlen : solution.length ≤ seed.length)
    (hmiss : st.IsSolution seed solution now = false)
    (hbad : seed.length < 16 + 1 ∨ seed.headD 1 ≠ 0 ∨
      (seed.drop 1).take 16 ≠ hmacMd5 m.secret ((seed.drop 1).drop 16)) :
    m.CheckSolution st now seed solution =
      (some (CheckErr.parseErr SeedErr.malformedSeed), st) ∧
    ∀ e : SeedErr, CheckErr.parseErr e ≠ CheckErr.invalidSolution := by
  have hparse : challengeParamsFromSeed seed m.secret =
      Except.error SeedErr.malformedSeed := by
    rw [challengeParamsFromSeed]
    rcases hbad with h | h | h
    · rw [if_pos (Or.inl h)]
    · rw [if_pos (Or.inr h)]
    · by_cases hshort : seed.length < 16 + 1 ∨ seed.headD 1 ≠ 0
      · rw [if_pos hshort]
      · rw [if_neg hshort, if_neg h]
  refine ⟨?_, fun e h => CheckErr.noConfusion h⟩
  rw [manager.CheckSolution, if_neg (by omega), if_neg (by simp [hmiss]),
    hparse]

/-- Witness for C2's amended theorem at seed `[9]` (too short and with a
nonzero version byte). -/
theorem checkSolution_malformed_wrapped_error_witness :
    ([] : List Nat).length ≤ ([9] : List Nat).length ∧
    NewMemoryStore.IsSolution [9] [] 0 = false ∧
    (([9] : List Nat).length < 16 + 1 ∨ ([9] : List Nat).headD 1 ≠ 0 ∨
      (([9] : List Nat).drop 1).take 16 ≠
        hmacMd5 mgrW.secret ((([9] : List Nat).drop 1).drop 16)) ∧
    (mgrW.CheckSolution NewMemoryStore 0 [9] [] =
      (some (CheckErr.parseErr SeedErr.malformedSeed), NewMemoryStore) ∧
    ∀ e : SeedErr, CheckErr.parseErr e ≠ CheckErr.invalidSolution) :=
  ⟨by decide, by decide, Or.inl (by decide),
    checkSolution_malformed_wrapped_error mgrW NewMemoryStore 0 [9] []
      (by decide) (by decide) (Or.inl (by decide))⟩

/-- C9: constructing a manager with nil options or a zero Target
substitutes the default target `0x00FFFFFF` (and a zero
ChallengeTimeout becomes 12 hours), every challenge such a manager
returns carries Target `0x00FFFFFF`, and no manager built by
`NewManager` can have target zero. -/
theorem manager_target_defaults (secret : List Nat) (o : Option ManagerOpts)
    (now : Int) (random : List Nat)
    (h : o = none ∨ ∃ x, o = some x ∧ x.Target = 0) :
    (NewManager secret o).opts.Target = 0x00FFFFFF ∧
    ((NewManager secret o).NewChallenge now random).Target = 0x00FFFFFF ∧
    ((o = none ∨ ∃ x, o = some x ∧ x.ChallengeTimeout = 0) →
      (NewManager secret o).opts.ChallengeTimeout = 12 * 3600 * 1000000000) ∧
    ∀ o' : Option ManagerOpts, (NewManager secret o').opts.Target ≠ 0 := by
  have htgt : (NewManager secret o).opts.Target = 0x00FFFFFF := by
    rcases h with rfl | ⟨x, rfl, hx⟩
    · rfl
    · simp [NewManager, ManagerOpts.withDefaults, hx]
  refine ⟨htgt, ?_, ?_, ?_⟩
  · rw [manager.NewChallenge]
    exact htgt
  · rintro (rfl | ⟨x, rfl, hx⟩)
    · rfl
    · simp [NewManager, ManagerOpts.withDefaults, hx]
  · intro o'
    rcases o' with _ | x
    · simp [NewManager, ManagerOpts.withDefaults]
    · by_cases hx : x.Target = 0 <;>
        simp [NewManager, ManagerOpts.withDefaults, hx]

/-- Witness for C9 with nil options. -/
theorem manager_target_defaults_witness :
    ((none : Option ManagerOpts) = none ∨
      ∃ x, (none : Option ManagerOpts) = some x ∧ x.Target = 0) ∧
    ((NewManager [7] none).opts.Target = 0x00FFFFFF ∧
      ((NewManager [7] none).NewChallenge 0 []).Target = 0x00FFFFFF ∧
      (((none : Option ManagerOpts) = none ∨
          ∃ x, (none : Option ManagerOpts) = some x ∧ x.ChallengeTimeout = 0) →
        (NewManager [7] none).opts.ChallengeTimeout = 12 * 3600 * 1000000000) ∧
      ∀ o' : Option ManagerOpts, (NewManager [7] o').opts.Target ≠ 0) :=
  ⟨Or.inl rfl, manager_target_defaults [7] none 0 [] (Or.inl rfl)⟩

/-- C10: `Close` on the in-memory store is not idempotent: with the
close channel still open, the first call returns a nil error and leaves
the channel closed (the stop signal the `spin` goroutine selects on),
and a second `Close` on the resulting store closes an already-closed
channel, which panics (`none`) rather than returning an error. -/
theorem memStore_close_not_idempotent (s : inMemStore)
    (hopen : s.closeCh.isClosed = false) :
    s.Close = some ({ s with closeCh := { isClosed := true } }, none) ∧
    (∀ s' err, s.Close = some (s', err) →
      err = none ∧ s'.closeCh.isClosed = true) ∧
    inMemStore.Close { s with closeCh := { isClosed := true } } = none := by
  have h1 : s.Close = some ({ s with closeCh := { isClosed := true } }, none) := by
    simp [inMemStore.Close, closeChannel, hopen]
  refine ⟨h1, ?_, ?_⟩
  · intro s' err h
    rw [h1] at h
    simp only [Option.some.injEq, Prod.mk.injEq] at h
    obtain ⟨hs, he⟩ := h
    exact ⟨he.symm, by rw [← hs]⟩
  · simp [inMemStore.Close, closeChannel]

/-- Witness for C10 on a fresh store. -/
theorem memStore_close_not_idempotent_witness :
    NewMemoryStore.closeCh.isClosed = false ∧
    (NewMemoryStore.Close =
      some ({ NewMemoryStore with closeCh := { isClosed := true } }, none) ∧
    (∀ s' err, NewMemoryStore.Close = some (s', err) →
      err = none ∧ s'.closeCh.isClosed = true) ∧
    inMemStore.Close { NewMemoryStore with closeCh := { isClosed := true } } =
      none) :=
  ⟨rfl, memStore_close_not_idempotent NewMemoryStore rfl⟩

/-- C7: `CheckSolution` is atomic with respect to the store: on every
failing outcome (oversized solution, malformed or forged seed, expired
seed, failed hash check) the returned store is exactly the input store,
and on a successful outcome either the pair was already cached (store
unchanged) or the pair has just been recorded with expiry
`time.Unix(c.expiresAt, 0)` taken from the seed's embedded parameters;
there is no partial effect. -/
theorem checkSolution_atomic_store_effect (m : manager) (st : inMemStore)
    (now : Int) (seed solution : List Nat) :
    (∀ e st', m.CheckSolution st now seed solution = (some e, st') → st' = st) ∧
    (∀ st', m.CheckSolution st now seed solution = (none, st') →
      (st.IsSolution seed solution now = true ∧ st' = st) ∨
      (∃ c, challengeParamsFromSeed seed m.secret = Except.ok c ∧
        st' = (st.SetSolution seed solution (timeFromUnix c.expiresAt)).1 ∧
        storeLookup st'.m ⟨seed, solution⟩ =
          some (timeFromUnix c.expiresAt))) := by
  constructor
  · intro e st' h
    rw [manager.CheckSolution] at h
    split at h
    · simp_all
    · split at h
      · simp_all
      · split at h
        · simp_all
        · split at h
          · simp_all
          · split at h
            · split at h <;> simp_all [inMemStore.SetSolution]
            · simp_all
  · intro st' h
    rw [manager.CheckSolution] at h
    split at h
    · simp_all
    · split at h
      · rename_i hcache
        simp only [Prod.mk.injEq] at h
        exact Or.inl ⟨hcache, h.2.symm⟩
      · split at h
        · simp_all
        · rename_i c hc
          split at h
          · simp_all
          · split at h
            · simp only [inMemStore.SetSolution, Prod.mk.injEq] at h
              obtain ⟨-, h2⟩ := h
              refine Or.inr ⟨c, hc, ?_, ?_⟩
              · rw [← h2]
                rfl
              · rw [← h2]
                simp [storeLookup]
            · simp_all

/-- Witness for C7 at the empty seed and solution on a fresh store. -/
theorem checkSolution_atomic_store_effect_witness :
    (∀ e st', mgrW.CheckSolution NewMemoryStore 0 [] [] = (some e, st') →
      st' = NewMemoryStore) ∧
    (∀ st', mgrW.CheckSolution NewMemoryStore 0 [] [] = (none, st') →
      (NewMemoryStore.IsSolution [] [] 0 = true ∧ st' = NewMemoryStore) ∨
      (∃ c, challengeParamsFromSeed [] mgrW.secret = Except.ok c ∧
        st' = (NewMemoryStore.SetSolution [] [] (timeFromUnix c.expiresAt)).1 ∧
        storeLookup st'.m ⟨[], []⟩ = some (timeFromUnix c.expiresAt))) :=
  checkSolution_atomic_store_effect mgrW NewMemoryStore 0 [] []

/-- C4: after a successful `CheckSolution` for a pair that was not in
the store, once the clock reaches or passes the seed's embedded expiry
(`c.expiresAt ≤ now` in Unix seconds), `CheckSolution` for the same pair
returns ErrExpiredSeed, an error distinct from ErrInvalidSolution: the
entry the success recorded stops validating at its recorded expiry, and
the re-verification path fails the expiry check after the signature
verifies; the store is left unchanged. -/
theorem checkSolution_expiredSeed_after_expiry (m : manager)
    (st0 st1 : inMemStore) (t0 now : Int) (seed solution : List Nat)
    (c : challengeParams)
    (hmiss : storeLookup st0.m ⟨seed, solution⟩ = none)
    (hsucc : m.CheckSolution st0 t0 seed solution = (none, st1))
    (hc : challengeParamsFromSeed seed m.secret = Except.ok c)
    (hexp : c.expiresAt ≤ timeUnix now) :
    m.CheckSolution st1 now seed solution = (some CheckErr.expiredSeed, st1) ∧
    CheckErr.expiredSeed ≠ CheckErr.invalidSolution := by
  have hIs0 : st0.IsSolution seed solution t0 = false := by
    simp [inMemStore.IsSolution, hmiss]
  rw [manager.CheckSolution] at hsucc
  split at hsucc
  · simp at hsucc
  · rename_i hnlen
    split at hsucc
    · simp_all
    · split at hsucc
      · rename_i e heq
        rw [hc] at heq
        exact Except.noConfusion heq
      · rename_i c' heq
        rw [hc] at heq
        obtain rfl : c = c' := Except.ok.inj heq
        split at hsucc
        · simp at hsucc
        · split at hsucc
          · simp only [inMemStore.SetSolution, Prod.mk.injEq] at hsucc
            obtain ⟨-, h1⟩ := hsucc
            have hIs1 : st1.IsSolution seed solution now = false := by
              rw [← h1]
              rw [timeUnix] at hexp
              simp [inMemStore.IsSolution, storeLookup, timeFromUnix]
              omega
            refine ⟨?_, by decide⟩
            rw [manager.CheckSolution, if_neg hnlen, if_neg (by simp [hIs1])]
            split
            · rename_i e heq2
              rw [hc] at heq2
              exact Except.noConfusion heq2
            · rename_i c'' heq2
              rw [hc] at heq2
              obtain rfl : c = c'' := Except.ok.inj heq2
              rw [if_pos hexp]
          · simp at hsucc

/-- Witness for C4: `seedW` (expiry at Unix second 1, maximal target)
solved with the empty solution at time 0, then re-checked at 2 s. -/
theorem checkSolution_expiredSeed_after_expiry_witness :
    storeLookup NewMemoryStore.m ⟨seedW, []⟩ = none ∧
    mgrW.CheckSolution NewMemoryStore 0 seedW [] = (none, storeW) ∧
    challengeParamsFromSeed seedW mgrW.secret = Except.ok paramsW ∧
    paramsW.expiresAt ≤ timeUnix 2000000000 ∧
    (mgrW.CheckSolution storeW 2000000000 seedW [] =
      (some CheckErr.expiredSeed, storeW) ∧
    CheckErr.expiredSeed ≠ CheckErr.invalidSolution) :=
  ⟨rfl, by decide, by decide, by decide,
    checkSolution_expiredSeed_after_expiry mgrW NewMemoryStore storeW 0
      2000000000 seedW [] paramsW rfl (by decide) (by decide) (by decide)⟩

/-- Witness for C3 at a concrete challenge with the maximal target and a
single-draw `Solve` run. -/
theorem check_iff_target_and_solve_sound_witness :
    (SolutionChecker.Check { Seed := seedW, Target := 4294967295 } [] = true ↔
      fromBE ((sha512 (seedW ++ [])).take 4) < 4294967295) ∧
    (Solve { Seed := seedW, Target := 4294967295 } (fun _ => []) 1 = some [] →
      SolutionChecker.Check { Seed := seedW, Target := 4294967295 } [] = true) :=
  check_iff_target_and_solve_sound ⟨seedW, 4294967295⟩ [] (fun _ => []) 1 []
